import Mathlib

/-!
# Verification of the Eleven-Term tool-call protocol and execution engine

Shallow embedding of the core functions of the repository:

* `classify_command_risk`, `DANGEROUS_PATTERNS`, `extract_tools`, `run_hook`
  (src/grok_agent.py),
* `execute_tool_safely` (src/main_helpers.py),
* the duplicate-collapsing loop of `extract_tools_from_natural_language` and
  `LoopState.save` (src/loop_utils.py),
* `save_history` (src/grok_agent.py).

Python strings are modelled as `String`/`List Char`; the small set of regular
expressions used by the source is compiled, pattern by pattern, into an
executable matcher (`Atom`, `matchesFrom`, `regexSearch`).  Python's `\w`,
`\s` and `\b` are modelled at ASCII scope, which covers every input the
source's own documentation and tests exercise.
-/

set_option autoImplicit false

namespace ElevenTerm

/-! ## Character classes (ASCII scope of Python's `\w` and `\s`) -/

/-- Python regex `\w` at ASCII scope: `[A-Za-z0-9_]`. -/
def isWordChar (c : Char) : Bool :=
  c.isAlphanum || c = '_'

/-- Python regex `\s` at ASCII scope: space, tab, newline, CR, FF, VT. -/
def isPySpace (c : Char) : Bool :=
  c = ' ' || c = '\t' || c = '\n' || c = '\r' || c = '\x0b' || c = '\x0c'

/-- Whether an optional character (the one before the current position, or
`none` at the string edge) is a word character, for `\b`. -/
def wordAt : Option Char → Bool
  | none => false
  | some c => isWordChar c

/-! ## Substring scanning primitives -/

/-- Strip `p` from the front of `s`, returning the remainder, or `none` when
`p` is not a prefix of `s`. -/
def stripPrefix? : List Char → List Char → Option (List Char)
  | [], s => some s
  | _ :: _, [] => none
  | p :: ps, c :: cs => if p = c then stripPrefix? ps cs else none

/-- Python's `pat in s` substring test. -/
def containsSub (pat : List Char) : List Char → Bool
  | [] => pat.isPrefixOf ([] : List Char)
  | c :: s' => pat.isPrefixOf (c :: s') || containsSub pat s'

/-- Split `s` at the earliest occurrence of `pat`: returns the part before the
occurrence and the part after it.  This is the semantics of the lazy group in
`(.*?)pat` under `re.DOTALL`. -/
def splitAtSub (pat : List Char) : List Char → Option (List Char × List Char)
  | [] => if pat.isPrefixOf ([] : List Char) then some ([], []) else none
  | c :: s' =>
    if pat.isPrefixOf (c :: s') then some ([], (c :: s').drop pat.length)
    else (splitAtSub pat s').map (fun ba => (c :: ba.1, ba.2))

theorem stripPrefix?_length {p s r : List Char} (h : stripPrefix? p s = some r) :
    r.length + p.length = s.length := by
  induction p generalizing s with
  | nil => simp [stripPrefix?] at h; simp [h]
  | cons a ps ih =>
    cases s with
    | nil => simp [stripPrefix?] at h
    | cons c cs =>
      simp only [stripPrefix?] at h
      split at h
      · have := ih h
        simp [List.length_cons]; omega
      · exact absurd h (by simp)

theorem stripPrefix?_append (p t : List Char) :
    stripPrefix? p (p ++ t) = some t := by
  induction p with
  | nil => rfl
  | cons a ps ih => simp [stripPrefix?, ih]

theorem splitAtSub_eq {pat s b a : List Char}
    (h : splitAtSub pat s = some (b, a)) : s = b ++ pat ++ a := by
  induction s generalizing b with
  | nil =>
    simp only [splitAtSub] at h
    split at h
    · rename_i hp
      have hpat : pat = [] := List.prefix_nil.mp (List.isPrefixOf_iff_prefix.mp hp)
      have hb : b = [] := by cases h; rfl
      have ha : a = [] := by cases h; rfl
      simp [hpat, hb, ha]
    · simp at h
  | cons c s' ih =>
    simp only [splitAtSub] at h
    split at h
    · rename_i hp
      have hb : b = [] := by cases h; rfl
      have ha : a = (c :: s').drop pat.length := by cases h; rfl
      obtain ⟨t, ht⟩ := List.isPrefixOf_iff_prefix.mp hp
      subst hb
      rw [ha, ← ht]
      simp
    · simp only [Option.map_eq_some'] at h
      obtain ⟨⟨b', a'⟩, hba, heq⟩ := h
      have h1 : b = c :: b' := by cases heq; rfl
      have h2 : a = a' := by cases heq; rfl
      subst h1 h2
      simp [ih hba]

theorem splitAtSub_length {pat s b a : List Char}
    (h : splitAtSub pat s = some (b, a)) : a.length ≤ s.length := by
  have := splitAtSub_eq h
  subst this
  simp
  omega

/-- If `pat` does not occur in `v ++ pat.dropLast`, then the earliest
occurrence of `pat` in `v ++ pat ++ r` is the one at position `v.length`:
no occurrence fits inside `v`, and an occurrence straddling the junction
would already show up inside `v ++ pat.dropLast`. -/
theorem splitAtSub_append {pat : List Char} (hne : pat ≠ []) (v r : List Char)
    (hv : containsSub pat (v ++ pat.dropLast) = false) :
    splitAtSub pat (v ++ (pat ++ r)) = some (v, r) := by
  induction v with
  | nil =>
    have hp : pat.isPrefixOf (pat ++ r) = true :=
      List.isPrefixOf_iff_prefix.mpr ⟨r, rfl⟩
    cases hpat : pat ++ r with
    | nil =>
      exact absurd (List.append_eq_nil.mp hpat).1 hne
    | cons x xs =>
      simp only [List.nil_append, splitAtSub, hpat] at hp ⊢
      simp only [hp, if_true]
      rw [← hpat, List.drop_left]
  | cons c v' ih =>
    simp only [List.cons_append, containsSub, Bool.or_eq_false_iff,
      List.append_eq] at hv
    obtain ⟨hnp, hrest⟩ := hv
    have hpl : 0 < pat.length := List.length_pos.mpr hne
    have hnp' : ¬ (pat.isPrefixOf (c :: (v' ++ (pat ++ r))) = true) := by
      intro hcon
      have hfull : pat <+: (c :: (v' ++ (pat ++ r))) :=
        List.isPrefixOf_iff_prefix.mp hcon
      have hsplit : (c :: (v' ++ (pat ++ r)) : List Char)
          = (c :: (v' ++ pat.dropLast)) ++ (pat.getLast hne :: r) := by
        conv_lhs => rw [← List.dropLast_append_getLast hne]
        simp
      rw [hsplit] at hfull
      have hlen : pat.length ≤ (c :: (v' ++ pat.dropLast)).length := by
        simp [List.length_dropLast]
        omega
      have hpre : pat <+: (c :: (v' ++ pat.dropLast)) :=
        List.prefix_of_prefix_length_le hfull (List.prefix_append _ _) hlen
      rw [List.isPrefixOf_iff_prefix.mpr hpre] at hnp
      simp at hnp
    simp only [List.cons_append, splitAtSub, List.append_eq]
    rw [if_neg hnp', ih hrest]
    rfl

/-! ## A small regex matcher

The source applies `re.search` with eleven fixed patterns
(`DANGEROUS_PATTERNS`, src/grok_agent.py lines 406-409).  Every one of them is
a sequence of the following atoms, so the matcher only supports these. -/

/-- One atom of the patterns used by `DANGEROUS_PATTERNS`: a literal
character, `\s+`, `\s*`, `.*`, or the word boundary `\b`. -/
inductive Atom where
  | ch (c : Char)
  | wsPlus
  | wsStar
  | dotStar
  | wb
deriving DecidableEq

/-- Matching at the end of the string: only `\s*`, `.*` and `\b` can still
succeed. -/
def matchNil : List Atom → Option Char → Bool
  | [], _ => true
  | .ch _ :: _, _ => false
  | .wsPlus :: _, _ => false
  | .wsStar :: rest, prev => matchNil rest prev
  | .dotStar :: rest, prev => matchNil rest prev
  | .wb :: rest, prev => (wordAt prev != false) && matchNil rest prev

/-- Matching against a string whose next character is `d`; `k` continues the
match on the rest of the string after consuming `d`.  Alternation over the
lengths matched by `\s+`/`\s*`/`.*` makes this an existence test, which is
all `re.search` reports. -/
def matchConsAux (k : List Atom → Option Char → Bool) (d : Char) :
    List Atom → Option Char → Bool
  | [], _ => true
  | .ch c :: rest, _ => d = c && k rest (some d)
  | .wsPlus :: rest, _ =>
    isPySpace d && (k rest (some d) || k (.wsPlus :: rest) (some d))
  | .wsStar :: rest, prev =>
    matchConsAux k d rest prev || (isPySpace d && k (.wsStar :: rest) (some d))
  | .dotStar :: rest, prev =>
    matchConsAux k d rest prev || (!(d = '\n') && k (.dotStar :: rest) (some d))
  | .wb :: rest, prev =>
    (wordAt prev != wordAt (some d)) && matchConsAux k d rest prev

/-- Does the atom sequence match a prefix of `s`?  `prev` is the character
just before the current position (`none` at the start of the string), needed
for `\b`.  Defined through `List.rec` so the kernel can evaluate it. -/
def matchAt (s : List Char) : List Atom → Option Char → Bool :=
  List.rec (motive := fun _ => List Atom → Option Char → Bool)
    (fun atoms prev => matchNil atoms prev)
    (fun d _ ih atoms prev => matchConsAux ih d atoms prev) s

/-- Does the atom sequence match a prefix of `s`? -/
def matchesFrom (atoms : List Atom) (prev : Option Char) (s : List Char) : Bool :=
  matchAt s atoms prev

/-- `re.search` semantics for the supported patterns: does the pattern match
starting at some position of `s`?  `prev` is the character before the first
candidate position. -/
def searchFrom (p : List Atom) : Option Char → List Char → Bool
  | prev, [] => matchesFrom p prev []
  | prev, c :: s' => matchesFrom p prev (c :: s') || searchFrom p (some c) s'

/-- `re.search(pattern, s) is not None`. -/
def regexSearch (p : List Atom) (s : List Char) : Bool :=
  searchFrom p none s

/-- Helper: the atoms of a literal string. -/
def lits (s : String) : List Atom :=
  s.data.map Atom.ch

/-! ## `DANGEROUS_PATTERNS` and `classify_command_risk`
(src/grok_agent.py lines 406-409 and 2064-2072) -/

/-- `DANGEROUS_PATTERNS`: the eleven regexes of src/grok_agent.py lines
406-409, compiled to atom sequences:
`rm\s+-rf`, `sudo\s+`, `kill\s+-9`, `mkfs\b`, `dd\s+if=`, `chmod\s+777`,
`>\s*/dev/`, `\bformat\b`, `\bfdisk\b`, `rm\s+.*`, `del\s+.*`. -/
def DANGEROUS_PATTERNS : List (List Atom) :=
  [ lits "rm" ++ [.wsPlus] ++ lits "-rf"
  , lits "sudo" ++ [.wsPlus]
  , lits "kill" ++ [.wsPlus] ++ lits "-9"
  , lits "mkfs" ++ [.wb]
  , lits "dd" ++ [.wsPlus] ++ lits "if="
  , lits "chmod" ++ [.wsPlus] ++ lits "777"
  , lits ">" ++ [.wsStar] ++ lits "/dev/"
  , [.wb] ++ lits "format" ++ [.wb]
  , [.wb] ++ lits "fdisk" ++ [.wb]
  , lits "rm" ++ [.wsPlus, .dotStar]
  , lits "del" ++ [.wsPlus, .dotStar] ]

/-- Python's `cmd.lower()` at ASCII scope. -/
def pyLower (s : String) : List Char :=
  s.data.map Char.toLower

/-- Does the lowered command match some dangerous pattern?  (The source
iterates the list in order and returns on the first hit; only the
existence of a hit is observable.) -/
def matchesDangerous (low : List Char) : Bool :=
  DANGEROUS_PATTERNS.any (fun p => regexSearch p low)

/-- The substring test of the SAFE branch:
`"ls" in cmd_lower or "cat" in cmd_lower or "echo" in cmd_lower`. -/
def hasSafeWord (low : List Char) : Bool :=
  containsSub "ls".data low || containsSub "cat".data low ||
    containsSub "echo".data low

/-- `classify_command_risk` (src/grok_agent.py lines 2064-2072). -/
def classify_command_risk (cmd : String) : String :=
  let cmd_lower := pyLower cmd
  if matchesDangerous cmd_lower then "DANGEROUS"
  else if hasSafeWord cmd_lower then "SAFE"
  else "CAUTION"

/-! ## `extract_tools` — Strategy A, the structured-tag parser
(src/grok_agent.py lines 2051-2062)

The source runs `re.findall(r'<tool name="(\w+)">(.*?)</tool>', response,
re.DOTALL)` and, on each captured body,
`re.findall(r'<param name="(\w+)">(.*?)</param>', body, re.DOTALL)`.
Both regexes have the same shape: an opening literal, a greedy nonempty
run of word characters (`\w+` is followed by `"`, which is not a word
character, so greediness never backtracks), the literal `">`, a lazy body
(earliest closing literal wins, `.` crossing newlines under `DOTALL`), and
the closing literal.  `findall` scans left to right and continues after
each match, so a failed position advances by one character. -/

def openToolLit : List Char := "<tool name=\"".data
def closeToolLit : List Char := "</tool>".data
def openParamLit : List Char := "<param name=\"".data
def closeParamLit : List Char := "</param>".data
def quoteGtLit : List Char := "\">".data

/-- Try to match `openLit (\w+)"> (.*?) closeLit` at the head of `s`,
returning the captured name, the captured body and the remainder of the
string after the match. -/
def matchTagAt (openLit closeLit : List Char) (s : List Char) :
    Option (List Char × List Char × List Char) :=
  match stripPrefix? openLit s with
  | none => none
  | some s1 =>
    if (s1.takeWhile isWordChar).isEmpty then none
    else
      match stripPrefix? quoteGtLit (s1.dropWhile isWordChar) with
      | none => none
      | some s3 =>
        match splitAtSub closeLit s3 with
        | none => none
        | some (body, rest) => some (s1.takeWhile isWordChar, body, rest)

theorem length_dropWhile_le (p : Char → Bool) (l : List Char) :
    (l.dropWhile p).length ≤ l.length := by
  induction l with
  | nil => simp [List.dropWhile]
  | cons c cs ih =>
    rw [List.dropWhile]
    split
    · simp; omega
    · simp

theorem matchTagAt_length {openLit closeLit s n b rest : List Char}
    (h : matchTagAt openLit closeLit s = some (n, b, rest)) :
    rest.length < s.length := by
  unfold matchTagAt at h
  split at h
  · exact absurd h (by simp)
  · rename_i s1 h1
    split at h
    · exact absurd h (by simp)
    · rename_i hname
      split at h
      · exact absurd h (by simp)
      · rename_i s3 h3
        split at h
        · exact absurd h (by simp)
        · rename_i body rest' hsplit
          have hbr : b = body ∧ rest = rest' := by
            cases h; exact ⟨rfl, rfl⟩
          have e1 : s1.length + openLit.length = s.length := stripPrefix?_length h1
          have e2 : (s1.dropWhile isWordChar).length ≤ s1.length :=
            length_dropWhile_le _ _
          have e2' : (s1.takeWhile isWordChar).length +
              (s1.dropWhile isWordChar).length = s1.length := by
            rw [← List.length_append, List.takeWhile_append_dropWhile]
          have hnz : (s1.takeWhile isWordChar).length ≠ 0 := by
            intro hz
            exact hname (List.isEmpty_iff.mpr (List.length_eq_zero.mp hz))
          have e3 : s3.length + quoteGtLit.length = (s1.dropWhile isWordChar).length :=
            stripPrefix?_length h3
          have e4 : rest'.length ≤ s3.length := splitAtSub_length hsplit
          have : quoteGtLit.length = 2 := rfl
          rw [hbr.2]
          omega

/-- The `re.findall` scan: emit every non-overlapping match, leftmost first,
resuming after each match and advancing one character past failed
positions. -/
def findTags (openLit closeLit : List Char) (s : List Char) :
    List (List Char × List Char) :=
  match h : matchTagAt openLit closeLit s with
  | some (n, b, rest) => (n, b) :: findTags openLit closeLit rest
  | none =>
    match s with
    | [] => []
    | _ :: s' => findTags openLit closeLit s'
termination_by s.length
decreasing_by
  · exact matchTagAt_length h
  · simp

/-- `extract_tools` (src/grok_agent.py lines 2051-2062): find every
`<tool name="...">...</tool>` match, then every
`<param name="...">...</param>` match inside its body. -/
def extract_tools (response : String) : List (String × List (String × String)) :=
  (findTags openToolLit closeToolLit response.data).map fun nb =>
    (String.mk nb.1,
      (findTags openParamLit closeParamLit nb.2).map fun pv =>
        (String.mk pv.1, String.mk pv.2))

/-! ## Rendering into the structured-tag grammar (spec §6), for the
round-trip property -/

/-- Render one parameter as `<param name="n">v</param>`. -/
def renderParamChars (p : String × String) : List Char :=
  openParamLit ++ p.1.data ++ quoteGtLit ++ p.2.data ++ closeParamLit

/-- Render a parameter list as the body of a tool tag. -/
def renderBodyChars (ps : List (String × String)) : List Char :=
  (ps.map renderParamChars).flatten

/-- Render one invocation as `<tool name="t">...params...</tool>`. -/
def renderToolChars (t : String × List (String × String)) : List Char :=
  openToolLit ++ t.1.data ++ quoteGtLit ++ renderBodyChars t.2 ++ closeToolLit

/-- Render a list of invocations as the text the model would emit. -/
def renderTools (ts : List (String × List (String × String))) : String :=
  String.mk ((ts.map renderToolChars).flatten)

/-- A usable tag name: nonempty, all word characters (`\w+`). -/
def wordStr (s : String) : Bool :=
  !s.data.isEmpty && s.data.all isWordChar

/-- A value encodable without the (undefined) escaping: `</param>` must not
occur in the value, nor start in its last seven characters and complete in
the closing literal the renderer appends. -/
def valueOk (v : String) : Bool :=
  !containsSub closeParamLit (v.data ++ closeParamLit.dropLast)

def paramOk (p : String × String) : Bool :=
  wordStr p.1 && valueOk p.2

/-- The rendered body must not contain an early `</tool>`. -/
def bodyOk (ps : List (String × String)) : Bool :=
  !containsSub closeToolLit (renderBodyChars ps ++ closeToolLit.dropLast)

/-- An invocation encodable in the structured-tag grammar. -/
def toolOk (t : String × List (String × String)) : Bool :=
  wordStr t.1 && t.2.all paramOk && bodyOk t.2

/-! ## Round-trip lemmas: parsing rendered invocations -/

theorem takeWhile_append_stop {p : Char → Bool} {xs : List Char}
    (hxs : xs.all p = true) {y : Char} (hy : p y = false) (l : List Char) :
    (xs ++ y :: l).takeWhile p = xs ∧ (xs ++ y :: l).dropWhile p = y :: l := by
  induction xs with
  | nil =>
    have hy' : ¬ (p y = true) := by simp [hy]
    simp [List.takeWhile_cons_of_neg hy', List.dropWhile_cons_of_neg hy']
  | cons x xs ih =>
    simp only [List.all_cons, Bool.and_eq_true] at hxs
    obtain ⟨hx, hxs'⟩ := hxs
    have ihr := ih hxs'
    simp [List.cons_append, List.takeWhile_cons_of_pos hx,
      List.dropWhile_cons_of_pos hx, ihr.1, ihr.2]

theorem matchTagAt_render {openLit closeLit : List Char}
    (hclose : closeLit ≠ [])
    {name : List Char} (hname : name ≠ []) (hword : name.all isWordChar = true)
    {body : List Char}
    (hbody : containsSub closeLit (body ++ closeLit.dropLast) = false)
    (rest : List Char) :
    matchTagAt openLit closeLit
      (openLit ++ name ++ quoteGtLit ++ body ++ closeLit ++ rest)
      = some (name, body, rest) := by
  have hq : isWordChar '"' = false := by decide
  have e : (openLit ++ name ++ quoteGtLit ++ body ++ closeLit ++ rest : List Char)
      = openLit ++ (name ++ '"' :: ('>' :: (body ++ (closeLit ++ rest)))) := by
    simp [quoteGtLit]
  have htw := takeWhile_append_stop hword hq ('>' :: (body ++ (closeLit ++ rest)))
  have e2 : ('"' :: ('>' :: (body ++ (closeLit ++ rest))) : List Char)
      = quoteGtLit ++ (body ++ (closeLit ++ rest)) := by
    simp [quoteGtLit]
  have hsplit := splitAtSub_append hclose body rest hbody
  rw [e]
  simp only [matchTagAt, stripPrefix?_append, List.isEmpty_iff]
  rw [htw.1, htw.2, if_neg hname, e2, stripPrefix?_append]
  simp only [hsplit]

theorem findTags_cons {openLit closeLit s n b rest : List Char}
    (h : matchTagAt openLit closeLit s = some (n, b, rest)) :
    findTags openLit closeLit s = (n, b) :: findTags openLit closeLit rest := by
  rw [findTags]
  split
  · rename_i n' b' rest' heq
    rw [heq] at h
    cases h
    rfl
  · rename_i heq
    rw [heq] at h
    cases h

theorem findTags_nil {openLit closeLit : List Char} (h : openLit ≠ []) :
    findTags openLit closeLit [] = [] := by
  rw [findTags]
  have : matchTagAt openLit closeLit [] = none := by
    unfold matchTagAt
    cases openLit with
    | nil => exact absurd rfl h
    | cons x xs => rfl
  split
  · rename_i heq
    rw [heq] at this
    cases this
  · rfl

/-- Parsing the rendered parameter list of a tool body recovers exactly the
parameters, in order. -/
theorem findTags_renderBody (ps : List (String × String))
    (h : ps.all paramOk = true) :
    findTags openParamLit closeParamLit (renderBodyChars ps)
      = ps.map (fun p => (p.1.data, p.2.data)) := by
  induction ps with
  | nil =>
    rw [renderBodyChars]
    simp only [List.map_nil, List.flatten_nil]
    exact findTags_nil (by decide)
  | cons p ps ih =>
    simp only [List.all_cons, Bool.and_eq_true] at h
    obtain ⟨hp, hps⟩ := h
    simp only [paramOk, Bool.and_eq_true, wordStr, valueOk,
      Bool.not_eq_true', Bool.and_eq_true, Bool.not_eq_eq_eq_not,
      Bool.not_true, List.isEmpty_eq_false] at hp
    have hrender : renderBodyChars (p :: ps)
        = openParamLit ++ p.1.data ++ quoteGtLit ++ p.2.data ++ closeParamLit
          ++ renderBodyChars ps := by
      simp [renderBodyChars, renderParamChars]
    rw [hrender]
    have hm := @matchTagAt_render openParamLit closeParamLit (by decide)
      p.1.data hp.1.1 hp.1.2 p.2.data hp.2 (renderBodyChars ps)
    rw [findTags_cons hm, ih hps]
    simp

/-- Parsing the rendered list of tool invocations recovers exactly the tool
names and bodies, in order. -/
theorem findTags_renderTools (ts : List (String × List (String × String)))
    (h : ts.all toolOk = true) :
    findTags openToolLit closeToolLit ((ts.map renderToolChars).flatten)
      = ts.map (fun t => (t.1.data, renderBodyChars t.2)) := by
  induction ts with
  | nil =>
    simp only [List.map_nil, List.flatten_nil]
    exact findTags_nil (by decide)
  | cons t ts ih =>
    simp only [List.all_cons, Bool.and_eq_true] at h
    obtain ⟨ht, hts⟩ := h
    simp only [toolOk, Bool.and_eq_true, wordStr, bodyOk,
      Bool.not_eq_true', Bool.and_eq_true, Bool.not_eq_eq_eq_not,
      Bool.not_true, List.isEmpty_eq_false] at ht
    have hrender : ((t :: ts).map renderToolChars).flatten
        = openToolLit ++ t.1.data ++ quoteGtLit ++ renderBodyChars t.2
          ++ closeToolLit ++ (ts.map renderToolChars).flatten := by
      simp [renderToolChars]
    rw [hrender]
    have hm := @matchTagAt_render openToolLit closeToolLit (by decide)
      t.1.data ht.1.1.1 ht.1.1.2 (renderBodyChars t.2) ht.2
      ((ts.map renderToolChars).flatten)
    rw [findTags_cons hm, ih hts]
    simp

theorem String.mk_data (s : String) : String.mk s.data = s := by
  cases s
  rfl

/-- Round trip: parsing the rendered text of a list of encodable invocations
reproduces exactly the same (toolName, params) pairs in the same order. -/
theorem extract_tools_renderTools (ts : List (String × List (String × String)))
    (h : ts.all toolOk = true) :
    extract_tools (renderTools ts) = ts := by
  unfold extract_tools renderTools
  rw [show (String.mk ((ts.map renderToolChars).flatten)).data
      = (ts.map renderToolChars).flatten from rfl]
  rw [findTags_renderTools ts h, List.map_map]
  have hpt : ∀ t ∈ ts, ((fun nb : List Char × List Char =>
      (String.mk nb.1,
        (findTags openParamLit closeParamLit nb.2).map fun pv =>
          (String.mk pv.1, String.mk pv.2))) ∘
      (fun t : String × List (String × String) =>
        (t.1.data, renderBodyChars t.2))) t = id t := by
    intro t hmem
    have htOk : toolOk t = true := (List.all_eq_true.mp h) t hmem
    simp only [toolOk, Bool.and_eq_true] at htOk
    simp only [Function.comp_apply, id_eq]
    rw [findTags_renderBody t.2 htOk.1.2, String.mk_data, List.map_map]
    have heta : ((fun pv : List Char × List Char =>
        (String.mk pv.1, String.mk pv.2)) ∘
        (fun p : String × String => (p.1.data, p.2.data)))
        = fun p : String × String => p := by
      funext p
      simp [String.mk_data]
    rw [heta]
    simp
  rw [List.map_congr_left hpt, List.map_id]

/-! ## The duplicate-collapsing loop of `extract_tools_from_natural_language`
(src/loop_utils.py lines 119-128)

```python
seen = set()
unique_tools = []
for tool_name, params in tools:
    key = (tool_name, tuple(sorted(params)))
    if key not in seen:
        seen.add(key)
        unique_tools.append((tool_name, params))
```

Note that the key sorts the `(name, value)` *pairs*, not just the parameter
names. -/

/-- Python's `<` on `(str, str)` tuples: lexicographic.  Used by `sorted`. -/
def pairLe (a b : String × String) : Bool :=
  if a.1 < b.1 then true
  else if a.1 = b.1 then decide (a.2 ≤ b.2)
  else false

/-- Stable insertion into a sorted list. -/
def insertSorted {α : Type} (le : α → α → Bool) (a : α) : List α → List α
  | [] => [a]
  | b :: l => if le a b then a :: b :: l else b :: insertSorted le a l

/-- A stable sort, modelling Python's `sorted`. -/
def insertionSort {α : Type} (le : α → α → Bool) : List α → List α
  | [] => []
  | a :: l => insertSorted le a (insertionSort le l)

/-- The dedup key: `(tool_name, tuple(sorted(params)))`. -/
def srcKey (t : String × List (String × String)) :
    String × List (String × String) :=
  (t.1, insertionSort pairLe t.2)

/-- The dedup loop; `seen` is the set of keys already emitted. -/
def dedup_go (seen : List (String × List (String × String))) :
    List (String × List (String × String)) →
      List (String × List (String × String))
  | [] => []
  | t :: ts =>
    if srcKey t ∈ seen then dedup_go seen ts
    else t :: dedup_go (srcKey t :: seen) ts

/-- The deduplication performed at the end of
`extract_tools_from_natural_language` (and nowhere else). -/
def dedup_tools (ts : List (String × List (String × String))) :
    List (String × List (String × String)) :=
  dedup_go [] ts

theorem dedup_go_sublist (seen : List (String × List (String × String)))
    (ts : List (String × List (String × String))) :
    (dedup_go seen ts).Sublist ts := by
  induction ts generalizing seen with
  | nil => simp [dedup_go]
  | cons t ts ih =>
    rw [dedup_go]
    split
    · exact (ih seen).trans (List.sublist_cons_self t ts)
    · exact (ih (srcKey t :: seen)).cons₂ t

theorem dedup_go_not_seen (seen : List (String × List (String × String)))
    (ts : List (String × List (String × String))) :
    ∀ k ∈ (dedup_go seen ts).map srcKey, k ∉ seen := by
  induction ts generalizing seen with
  | nil => simp [dedup_go]
  | cons t ts ih =>
    rw [dedup_go]
    split
    · exact ih seen
    · rename_i hnot
      intro k hk
      simp only [List.map_cons, List.mem_cons] at hk
      rcases hk with hk | hk
      · subst hk; exact hnot
      · have := ih (srcKey t :: seen) k hk
        intro hmem
        exact this (List.mem_cons_of_mem _ hmem)

theorem dedup_go_nodup_keys (seen : List (String × List (String × String)))
    (ts : List (String × List (String × String))) :
    ((dedup_go seen ts).map srcKey).Nodup := by
  induction ts generalizing seen with
  | nil => simp [dedup_go]
  | cons t ts ih =>
    rw [dedup_go]
    split
    · exact ih seen
    · simp only [List.map_cons, List.nodup_cons]
      constructor
      · intro hmem
        exact dedup_go_not_seen (srcKey t :: seen) ts (srcKey t) hmem
          (List.mem_cons_self _ _)
      · exact ih (srcKey t :: seen)

/-! ## The claim key: same tool name and same *set of parameter names* -/

/-- Two invocations agree on the claim's key: same tool name and the same
set of parameter names. -/
def sameClaimKey (a b : String × List (String × String)) : Prop :=
  a.1 = b.1 ∧ List.Perm (a.2.map Prod.fst) (b.2.map Prod.fst)

/-- A parsed sequence without two invocations of the same claim key. -/
def noDupClaimKeys (ts : List (String × List (String × String))) : Prop :=
  ts.Pairwise (fun a b => ¬ sameClaimKey a b)

/-! ## The drivers' params conversion
`params = {p[0]: p[1] for p in params_list}`
(src/main_helpers.py line 369, src/loop_utils.py line 413)

A Python dict built by a comprehension keeps the first occurrence's position
and the last occurrence's value for a repeated key; it is modelled as an
insertion-ordered association list. -/

def pyDictInsert (m : List (String × String)) (kv : String × String) :
    List (String × String) :=
  if m.any (fun e => e.1 = kv.1) then
    m.map (fun e => if e.1 = kv.1 then (e.1, kv.2) else e)
  else m ++ [kv]

/-- The dict comprehension over an ordered pair list. -/
def pyDictOfList (ps : List (String × String)) : List (String × String) :=
  ps.foldl pyDictInsert []

/-! ## `run_hook` (src/grok_agent.py lines 2074-2094)

The filesystem and subprocess interactions are an oracle: the model takes
what the environment did (no script / completed / timed out / raised) as
input and mirrors the source's translation into the returned pair.

```python
if os.path.exists(hook_file):
    try:
        proc = subprocess.Popen([...])
        output, error = proc.communicate(json.dumps(data), timeout=30)
        return proc.returncode == 0, output or error
    except subprocess.TimeoutExpired:
        return False, "Hook timeout"
    except Exception as e:
        return False, str(e)
return True, ""
``` -/

/-- What the hook script's environment did. -/
inductive HookScriptOutcome where
  | absent
  | completed (returncode : Int) (output error : String)
  | timeout
  | failed (msg : String)
deriving DecidableEq

/-- `run_hook`: the returned `(success, output)` pair.  `hook_type` selects
the script file but is never interpolated into any returned message. -/
def run_hook (hook_type : String) (outcome : HookScriptOutcome) : Bool × String :=
  match outcome with
  | .absent => (true, "")
  | .completed rc out err => (decide (rc = 0), if out = "" then err else out)
  | .timeout => (false, "Hook timeout")
  | .failed e => (false, e)

/-! ## `execute_tool_safely` (src/main_helpers.py lines 148-198)

The gate is modelled as a pure function of the environment's contributions:
whether the tool name is registered in `TOOLS`, the pre-hook's result, the
consent answer typed at the prompt, and the handler's outcome (a result
triple, or a raised exception).  The trace records whether the consent
prompt was shown and whether the registered handler was invoked. -/

/-- Result triple plus the two observable events of one gate invocation. -/
structure GateTrace where
  result : Option Int × String × String
  prompted : Bool
  handlerInvoked : Bool
deriving DecidableEq

/-- `execute_tool_safely`.  `command` is `params.get('command', '')`;
`handler` is the outcome of `TOOLS[tool_name](params)` were it called. -/
def execute_tool_safely (toolKnown : Bool) (tool_name : String)
    (command : String) (dangerously_skip_permissions force : Bool)
    (preHookOk : Bool) (preHookOut : String) (consentAnswer : String)
    (handler : Except String (Option Int × String × String)) : GateTrace :=
  if toolKnown = false then
    ⟨(some 1, "", "Unknown tool: " ++ tool_name), false, false⟩
  else
    let risk := if tool_name = "Bash" then classify_command_risk command
                else "SAFE"
    if preHookOk = false then
      ⟨(some 1, "", preHookOut), false, false⟩
    else if dangerously_skip_permissions = false ∧ risk ≠ "SAFE" ∧
        force = false then
      if pyLower consentAnswer ≠ "y".data then
        ⟨(some 0, "", "Cancelled by user"), true, false⟩
      else
        match handler with
        | .ok r => ⟨r, true, true⟩
        | .error e => ⟨(some 1, "", e), true, true⟩
    else
      match handler with
      | .ok r => ⟨r, false, true⟩
      | .error e => ⟨(some 1, "", e), false, true⟩

/-! ## Persistence disciplines (C8)

`save_history` (src/grok_agent.py lines 1456-1503) writes the serialized
JSON to `<target>.tmp` and then calls `temp_file.replace(history_path)` —
an atomic rename.  `LoopState.save` (src/loop_utils.py lines 157-176) does
`with open(self.state_file, 'w') as f: json.dump(state_data, f, indent=2)`
— it truncates the target itself and streams the serialization into it.
Both are modelled as sequences of primitive filesystem events on the target
path and a temporary file; an interrupted save executes a prefix. -/

inductive FsOp where
  | truncateTarget
  | appendTarget (chunk : String)
  | truncateTemp
  | appendTemp (chunk : String)
  | renameTempToTarget
deriving DecidableEq

/-- Contents of the target path and of the temporary file, as chunk lists. -/
structure FsState where
  target : List String
  temp : List String
deriving DecidableEq

def applyOp (st : FsState) : FsOp → FsState
  | .truncateTarget => ⟨[], st.temp⟩
  | .appendTarget c => ⟨st.target ++ [c], st.temp⟩
  | .truncateTemp => ⟨st.target, []⟩
  | .appendTemp c => ⟨st.target, st.temp ++ [c]⟩
  | .renameTempToTarget => ⟨st.temp, st.temp⟩

def runOps (ops : List FsOp) (st : FsState) : FsState :=
  ops.foldl applyOp st

/-- `save_history`: open the temp file (truncating it), stream the JSON
chunks into it, atomically rename it over the target. -/
def save_history_ops (chunks : List String) : List FsOp :=
  FsOp.truncateTemp :: (chunks.map FsOp.appendTemp ++ [FsOp.renameTempToTarget])

/-- `LoopState.save`: open the target itself with mode `'w'` (truncating
it) and stream the JSON chunks into it. -/
def loopstate_save_ops (chunks : List String) : List FsOp :=
  FsOp.truncateTarget :: chunks.map FsOp.appendTarget

theorem runOps_target_of_temp_prefix (chunks : List String)
    (p q : List FsOp) (st : FsState)
    (h : chunks.map FsOp.appendTemp ++ [FsOp.renameTempToTarget] = p ++ q) :
    (runOps p st).target = st.target ∨ (runOps p st).target = st.temp ++ chunks := by
  induction chunks generalizing p st with
  | nil =>
    simp only [List.map_nil, List.nil_append] at h
    cases p with
    | nil => left; rfl
    | cons x p' =>
      cases p' with
      | nil =>
        have hx : x = FsOp.renameTempToTarget := by
          have := congrArg (fun l => l.head?) h
          simpa using this.symm
        subst hx
        right
        simp [runOps, applyOp]
      | cons y p'' =>
        exfalso
        have := congrArg List.length h
        simp at this
  | cons c cs ih =>
    cases p with
    | nil => left; rfl
    | cons x p' =>
      simp only [List.map_cons, List.cons_append] at h
      have hx : x = FsOp.appendTemp c := by
        have := congrArg (fun l => l.head?) h
        simpa using this.symm
      have hrest : cs.map FsOp.appendTemp ++ [FsOp.renameTempToTarget]
          = p' ++ q := by
        have := congrArg List.tail h
        simpa using this
      subst hx
      have step : runOps (FsOp.appendTemp c :: p') st
          = runOps p' ⟨st.target, st.temp ++ [c]⟩ := rfl
      rw [step]
      rcases ih p' ⟨st.target, st.temp ++ [c]⟩ hrest with h1 | h1
      · left; exact h1
      · right
        rw [h1]
        simp

/-- Atomicity of the history discipline: any interrupted prefix of the
operation sequence leaves the target holding either the old or the new
content. -/
theorem save_history_atomic (old chunks : List String) (p : List FsOp)
    (hp : p <+: save_history_ops chunks) :
    (runOps p ⟨old, []⟩).target = old ∨ (runOps p ⟨old, []⟩).target = chunks := by
  obtain ⟨q, hq⟩ := hp
  cases p with
  | nil => left; rfl
  | cons x p' =>
    simp only [save_history_ops, List.cons_append] at hq
    have hx : x = FsOp.truncateTemp := by
      have := congrArg (fun l => l.head?) hq
      simpa using this
    have hrest : chunks.map FsOp.appendTemp ++ [FsOp.renameTempToTarget]
        = p' ++ q := by
      have := congrArg List.tail hq
      simpa using this.symm
    subst hx
    have step : runOps (FsOp.truncateTemp :: p') (⟨old, []⟩ : FsState)
        = runOps p' ⟨old, []⟩ := by
      simp [runOps, applyOp]
    rw [step]
    rcases runOps_target_of_temp_prefix chunks p' q ⟨old, []⟩ hrest with h1 | h1
    · left; exact h1
    · right; simpa using h1

/-- A Bash invocation used by the duplicate-invocation counterexample. -/
def bashLsTool : String × List (String × String) :=
  ("Bash", [("command", "ls")])

/-! ## Claim theorems -/

/-- C1: for a Bash invocation whose classified risk is not SAFE, with
skip-permissions and force unset and the pre-hook passing, the gate prompts
for consent, and a non-affirmative answer yields ToolResult
(0, "", "Cancelled by user") with the registered handler never invoked. -/
theorem C1_consent_denied_cancels_without_handler
    (command preHookOut answer : String)
    (handler : Except String (Option Int × String × String))
    (hrisk : classify_command_risk command ≠ "SAFE")
    (hans : pyLower answer ≠ "y".data) :
    execute_tool_safely true "Bash" command false false true preHookOut
      answer handler
      = ⟨(some 0, "", "Cancelled by user"), true, false⟩ := by
  simp [execute_tool_safely, hrisk, hans]

/-- Witness for C1 at the spec's end-to-end scenario 3:
`command="rm -rf /tmp/x"`, answer `"n"`. -/
theorem C1_witness :
    classify_command_risk "rm -rf /tmp/x" ≠ "SAFE" ∧
    pyLower "n" ≠ "y".data ∧
    execute_tool_safely true "Bash" "rm -rf /tmp/x" false false true "" "n"
      (.ok (some 0, "listing", ""))
      = ⟨(some 0, "", "Cancelled by user"), true, false⟩ :=
  ⟨by decide, by decide,
    C1_consent_denied_cancels_without_handler "rm -rf /tmp/x" "" "n"
      (.ok (some 0, "listing", "")) (by decide) (by decide)⟩

/-- C2: if the PreToolUse hook runs and returns failure, the gate returns
ToolResult (1, "", hookOutput) and the registered handler is never
called, whatever the flags, answer and handler would have been. -/
theorem C2_prehook_failure_blocks_handler
    (tool_name command preHookOut answer : String)
    (skip force : Bool)
    (handler : Except String (Option Int × String × String)) :
    execute_tool_safely true tool_name command skip force false preHookOut
      answer handler
      = ⟨(some 1, "", preHookOut), false, false⟩ := by
  simp [execute_tool_safely]

/-- C3 counterexample: the empty command is classified CAUTION, not SAFE as
the claim states (it matches no dangerous pattern and contains none of the
substrings "ls", "cat", "echo"). -/
theorem C3_counterexample :
    classify_command_risk "" = "CAUTION" ∧ classify_command_risk "" ≠ "SAFE" :=
  ⟨by decide, by decide⟩

/-- C3 amended: `classify_command_risk` returns exactly one of SAFE,
CAUTION, DANGEROUS for every input string, and for the empty string it
returns CAUTION. -/
theorem C3_classifier_total (cmd : String) :
    (classify_command_risk cmd = "SAFE" ∨ classify_command_risk cmd = "CAUTION"
      ∨ classify_command_risk cmd = "DANGEROUS") ∧
    classify_command_risk "" = "CAUTION" := by
  constructor
  · by_cases h1 : matchesDangerous (pyLower cmd) = true
    · right; right; simp [classify_command_risk, h1]
    · by_cases h2 : hasSafeWord (pyLower cmd) = true
      · left; simp [classify_command_risk, h1, h2]
      · right; left; simp [classify_command_risk, h1, h2]
  · decide

/-- C4: any command matching a dangerous pattern — in particular one that
also matches a mutating pattern — is classified DANGEROUS, never CAUTION;
and `classify_command_risk "sudo rm -rf /tmp" = "DANGEROUS"`. -/
theorem C4_dangerous_precedence (cmd : String)
    (hd : matchesDangerous (pyLower cmd) = true) :
    classify_command_risk cmd = "DANGEROUS" ∧
    classify_command_risk cmd ≠ "CAUTION" ∧
    classify_command_risk "sudo rm -rf /tmp" = "DANGEROUS" := by
  have h1 : classify_command_risk cmd = "DANGEROUS" := by
    simp [classify_command_risk, hd]
  exact ⟨h1, by simp [h1], by decide⟩

/-- Witness for C4 at `"sudo rm -rf /tmp"`, which matches both the
dangerous pattern `sudo\s+` (and `rm\s+-rf`) and a mutating pattern. -/
theorem C4_witness :
    matchesDangerous (pyLower "sudo rm -rf /tmp") = true ∧
    classify_command_risk "sudo rm -rf /tmp" = "DANGEROUS" :=
  ⟨by decide, (C4_dangerous_precedence "sudo rm -rf /tmp" (by decide)).1⟩

/-- C5 counterexample: the structured-tag parser performs no deduplication,
so the sequence it hands to the gate can contain two invocations with the
same tool name and the same set of parameter names. -/
theorem C5_counterexample :
    ¬ noDupClaimKeys (extract_tools
      "<tool name=\"Bash\"><param name=\"command\">ls</param></tool><tool name=\"Bash\"><param name=\"command\">ls</param></tool>") := by
  have h1 : ("<tool name=\"Bash\"><param name=\"command\">ls</param></tool><tool name=\"Bash\"><param name=\"command\">ls</param></tool>" : String)
      = renderTools [bashLsTool, bashLsTool] := by decide
  have h2 : extract_tools (renderTools [bashLsTool, bashLsTool])
      = [bashLsTool, bashLsTool] :=
    extract_tools_renderTools [bashLsTool, bashLsTool] (by decide)
  rw [h1, h2]
  intro h
  exact (List.pairwise_cons.mp h).1 bashLsTool (List.mem_cons_self _ _)
    ⟨rfl, List.Perm.refl _⟩

/-- C5 amended: only the natural-language fallback deduplicates — by the
key (toolName, sorted (name, value) pair tuple), keeping the first
occurrence — while the structured-tag strategy emits every match, so
duplicates can reach the gate. -/
theorem C5_dedup_only_in_fallback :
    (∀ ts, ((dedup_tools ts).map srcKey).Nodup) ∧
    (∀ ts, (dedup_tools ts).Sublist ts) ∧
    (∀ seen t ts, srcKey t ∉ seen →
      dedup_go seen (t :: ts) = t :: dedup_go (srcKey t :: seen) ts) ∧
    (∀ seen t ts, srcKey t ∈ seen →
      dedup_go seen (t :: ts) = dedup_go seen ts) ∧
    extract_tools (renderTools [bashLsTool, bashLsTool])
      = [bashLsTool, bashLsTool] := by
  refine ⟨fun ts => dedup_go_nodup_keys [] ts,
    fun ts => dedup_go_sublist [] ts, ?_, ?_, ?_⟩
  · intro seen t ts hnot
    simp [dedup_go, hnot]
  · intro seen t ts hmem
    simp [dedup_go, hmem]
  · exact extract_tools_renderTools [bashLsTool, bashLsTool] (by decide)

/-- Witness for C5's amended statement at a concrete duplicate list. -/
theorem C5_witness :
    dedup_go [] [bashLsTool, bashLsTool]
      = bashLsTool :: dedup_go [srcKey bashLsTool] [bashLsTool] ∧
    dedup_go [srcKey bashLsTool] [bashLsTool]
      = dedup_go [srcKey bashLsTool] [] :=
  ⟨C5_dedup_only_in_fallback.2.2.1 [] bashLsTool [bashLsTool] (by decide),
    C5_dedup_only_in_fallback.2.2.2.1 [srcKey bashLsTool] bashLsTool []
      (by decide)⟩

/-- C6: for any invocation list encodable in the structured tag grammar,
rendering it and running the Strategy A parser reproduces exactly the same
(toolName, params) pairs in the same order. -/
theorem C6_roundtrip (ts : List (String × List (String × String)))
    (h : ts.all toolOk = true) :
    extract_tools (renderTools ts) = ts :=
  extract_tools_renderTools ts h

/-- Witness for C6 with two invocations, one with a multi-line parameter
value. -/
theorem C6_witness :
    (([("Bash", [("command", "ls -la\ngit st")]),
       ("View", [("path", "a.py"), ("mode", "full")])] :
        List (String × List (String × String))).all toolOk = true) ∧
    extract_tools (renderTools
      [("Bash", [("command", "ls -la\ngit st")]),
       ("View", [("path", "a.py"), ("mode", "full")])])
      = [("Bash", [("command", "ls -la\ngit st")]),
         ("View", [("path", "a.py"), ("mode", "full")])] :=
  ⟨by decide, C6_roundtrip _ (by decide)⟩

/-- C7 counterexample: a timed-out hook reports the fixed string
"Hook timeout", not "<hookType> timeout" as the claim states. -/
theorem C7_counterexample :
    run_hook "PreToolUse" .timeout ≠ (false, "PreToolUse timeout") ∧
    run_hook "PreToolUse" .timeout = (false, "Hook timeout") :=
  ⟨by decide, by decide⟩

/-- C7 amended: for every hookType, `run_hook` returns (true, "") when no
script exists, (false, "Hook timeout") — a fixed string — on timeout, and
(false, str(exception)) on a spawn/communication exception; it is a total
function, so it never raises into its caller. -/
theorem C7_run_hook_contract (hook_type : String) (rc : Int)
    (out err msg : String) :
    run_hook hook_type .absent = (true, "") ∧
    run_hook hook_type .timeout = (false, "Hook timeout") ∧
    run_hook hook_type (.failed msg) = (false, msg) ∧
    run_hook hook_type (.completed rc out err)
      = (decide (rc = 0), if out = "" then err else out) :=
  ⟨rfl, rfl, rfl, rfl⟩

/-- C8 counterexample: `LoopState.save` truncates the state file in place
and streams the JSON into it, so interrupting it after the first chunk
leaves a file that is neither the previous nor the new complete state. -/
theorem C8_counterexample :
    ([FsOp.truncateTarget, FsOp.appendTarget "part1"]
      <+: loopstate_save_ops ["part1", "part2"]) ∧
    (runOps [FsOp.truncateTarget, FsOp.appendTarget "part1"]
      ⟨["OLDSTATE"], []⟩).target ≠ ["OLDSTATE"] ∧
    (runOps [FsOp.truncateTarget, FsOp.appendTarget "part1"]
      ⟨["OLDSTATE"], []⟩).target ≠ ["part1", "part2"] :=
  ⟨by decide, by decide, by decide⟩

/-- C8 amended: history saves follow the atomic temp-file-then-rename
discipline — every interrupted prefix leaves the old or the new content —
but `LoopState.save` writes the target directly and does not satisfy that
guarantee. -/
theorem C8_history_atomic_loopstate_direct (old chunks : List String)
    (p : List FsOp) (hp : p <+: save_history_ops chunks) :
    ((runOps p ⟨old, []⟩).target = old ∨
      (runOps p ⟨old, []⟩).target = chunks) ∧
    ¬ (∀ q, q <+: loopstate_save_ops ["part1", "part2"] →
        (runOps q ⟨["OLDSTATE"], []⟩).target = ["OLDSTATE"] ∨
        (runOps q ⟨["OLDSTATE"], []⟩).target = ["part1", "part2"]) := by
  refine ⟨save_history_atomic old chunks p hp, fun hall => ?_⟩
  have := hall [FsOp.truncateTarget, FsOp.appendTarget "part1"] (by decide)
  rcases this with h | h <;> simp [runOps, applyOp] at h

/-- Witness for C8's amended statement at a one-chunk history save. -/
theorem C8_witness :
    ([FsOp.truncateTemp] <+: save_history_ops ["c"]) ∧
    ((runOps [FsOp.truncateTemp] ⟨["o"], []⟩).target = ["o"] ∨
      (runOps [FsOp.truncateTemp] ⟨["o"], []⟩).target = ["c"]) :=
  ⟨by decide,
    (C8_history_atomic_loopstate_direct ["o"] ["c"] [FsOp.truncateTemp]
      (by decide)).1⟩

/-- C9: a command matching no dangerous pattern that contains "ls", "cat"
or "echo" as a substring after case-folding is classified SAFE — so the
gate never prompts for it, whatever the flags — and every other
non-dangerous command is classified CAUTION. -/
theorem C9_safe_substring_skips_prompt (cmd : String)
    (hnd : matchesDangerous (pyLower cmd) = false) :
    (hasSafeWord (pyLower cmd) = true →
      classify_command_risk cmd = "SAFE" ∧
      ∀ (skip force preOk : Bool) (preOut answer : String)
        (handler : Except String (Option Int × String × String)),
        (execute_tool_safely true "Bash" cmd skip force preOk preOut answer
          handler).prompted = false) ∧
    (hasSafeWord (pyLower cmd) = false →
      classify_command_risk cmd = "CAUTION") := by
  constructor
  · intro hsw
    have hcls : classify_command_risk cmd = "SAFE" := by
      simp [classify_command_risk, hnd, hsw]
    refine ⟨hcls, ?_⟩
    intro skip force preOk preOut answer handler
    cases preOk <;> cases handler <;>
      simp [execute_tool_safely, hcls]
  · intro hsw
    simp [classify_command_risk, hnd, hsw]

/-- Witness for C9 at `"python tools.py"` ("tools" contains "ls"). -/
theorem C9_witness :
    matchesDangerous (pyLower "python tools.py") = false ∧
    hasSafeWord (pyLower "python tools.py") = true ∧
    classify_command_risk "python tools.py" = "SAFE" ∧
    (execute_tool_safely true "Bash" "python tools.py" false false true ""
      "n" (.ok (some 0, "", ""))).prompted = false :=
  have h := C9_safe_substring_skips_prompt "python tools.py" (by decide)
  ⟨by decide, by decide, (h.1 (by decide)).1,
    (h.1 (by decide)).2 false false true "" "n" (.ok (some 0, "", ""))⟩

/-- C10: a tool tag with two same-named parameters parses to both (name,
value) pairs in document order, and the drivers' dict comprehension gives
the handler the last occurrence's value. -/
theorem C10_duplicate_params_last_wins (t p v1 v2 : String)
    (h : ([(t, [(p, v1), (p, v2)])] :
      List (String × List (String × String))).all toolOk = true) :
    extract_tools (renderTools [(t, [(p, v1), (p, v2)])])
      = [(t, [(p, v1), (p, v2)])] ∧
    pyDictOfList [(p, v1), (p, v2)] = [(p, v2)] := by
  refine ⟨extract_tools_renderTools _ h, ?_⟩
  simp [pyDictOfList, pyDictInsert]

/-- Witness for C10 at duplicate "command" parameters. -/
theorem C10_witness :
    (([("Bash", [("command", "ls"), ("command", "pwd")])] :
      List (String × List (String × String))).all toolOk = true) ∧
    extract_tools (renderTools [("Bash", [("command", "ls"), ("command", "pwd")])])
      = [("Bash", [("command", "ls"), ("command", "pwd")])] ∧
    pyDictOfList [("command", "ls"), ("command", "pwd")]
      = [("command", "pwd")] :=
  have h := C10_duplicate_params_last_wins "Bash" "command" "ls" "pwd"
    (by decide)
  ⟨by decide, h.1, h.2⟩

end ElevenTerm
